import Mathlib

/-!
Verification development for SimilarPictureCleaner (src/main.go).

The program scans a directory for images, computes a 64-bit perceptual hash
per image (via the goimagehash library), groups images whose pairwise hash
distance is within a similarity threshold (findSimilarImages), and optionally
deletes all but one representative per group (deleteSimilarImages).

Embedding choices:
* Go float64 values that occur here (the similarity `1 - distance/64.0` and
  the threshold `percentage/100`) are modelled as exact rationals.  For the
  similarity this is lossless: `distance` is an integer in [0, 64], so
  `float64(distance)/64.0` and `1 - ...` are exact in double precision, and
  a float comparison of two exactly represented values agrees with the
  rational comparison.
* goimagehash `ImageHash.Distance` is embedded from its library source: an
  error when the hash kinds differ, otherwise the Hamming weight of the XOR
  of the two 64-bit hash words.
* `sort.Slice` (used by deleteSimilarImages) is an external standard-library
  call.  It is modelled by its documented contract `SortSliceSpec`: the
  output is a permutation of the input admissible for the comparator.  The
  contract explicitly does NOT guarantee stability (Go provides
  `sort.SliceStable` for that), which matters for the reclamation claims.
* `fmt.Sscanf` with verb `%f` (used by parsePercentage) is an external call,
  modelled by its contract as an `Option ℚ`: `none` when scanning fails.
* `os.Stat` and `os.Remove` are modelled as oracles `String → Except String _`;
  the list of successfully removed paths is returned so the side effects can
  be observed.
-/

/-- Population count of a 64-bit word: the number of set bits among bit
positions 0..63.  Models the popcount the goimagehash library uses to
compute the Hamming distance between two 64-bit perceptual hashes. -/
def popcnt (n : Nat) : Nat :=
  (List.range 64).foldl (fun acc i => acc + n / 2 ^ i % 2) 0

/-- A perceptual image hash as in the goimagehash library: a 64-bit hash word
(stored as a natural number and read modulo 2^64) together with its kind tag
(aHash / pHash / dHash ...).  In this program every hash is produced by
PerceptionHash, so all kinds coincide, but Distance checks the kinds. -/
structure ImageHash where
  hash : Nat
  kind : Nat
deriving DecidableEq

/-- goimagehash ImageHash.Distance: an error when the two hash kinds differ,
otherwise the Hamming weight of the XOR of the two 64-bit hash words, hence
an integer in [0, 64]. -/
def ImageHash.Distance (h other : ImageHash) : Except String Nat :=
  if h.kind = other.kind then
    Except.ok (popcnt ((h.hash % 2 ^ 64) ^^^ (other.hash % 2 ^ 64)))
  else
    Except.error "image hashes kind should be identical"

/-- ImageInfo (src/main.go lines 17-20): a scanned file's path and its
perceptual hash. -/
structure ImageInfo where
  Path : String
  Hash : ImageHash
deriving DecidableEq

/-- The similarity the grouping loop derives from a distance
(src/main.go line 141): `similarity := 1 - float64(distance)/64.0`.
Exact in double precision for distance in [0, 64], hence modelled as the
rational it denotes. -/
def similarity (distance : Nat) : ℚ :=
  1 - (distance : ℚ) / 64

/-- One candidate test of the grouping inner loop (src/main.go lines
136-145): compute the distance between the anchor's and the candidate's
hashes; a distance error is logged and the candidate skipped (treated as
not similar); otherwise the candidate is similar when
`1 - distance/64 >= threshold`. -/
def isSimilarTo (t : ℚ) (anchor candidate : ImageInfo) : Bool :=
  match anchor.Hash.Distance candidate.Hash with
  | Except.error _ => false
  | Except.ok d => decide (similarity d ≥ t)

/-- Inner loop of findSimilarImages (src/main.go lines 132-146) over the
indexed suffix `j = i+1 .. n-1`: skip indices already claimed (`used`),
append similar candidates to the group and claim their index.  Returns the
appended members (without the anchor) and the updated claimed set. -/
def findSimilarImagesInner (t : ℚ) (anchor : ImageInfo) :
    List (Nat × ImageInfo) → List Nat → List ImageInfo × List Nat
  | [], used => ([], used)
  | (j, img) :: rest, used =>
    if j ∈ used then
      findSimilarImagesInner t anchor rest used
    else if isSimilarTo t anchor img then
      let r := findSimilarImagesInner t anchor rest (j :: used)
      (img :: r.1, r.2)
    else
      findSimilarImagesInner t anchor rest used

/-- Outer loop of findSimilarImages (src/main.go lines 127-150) over the
indexed images: skip claimed indices, grow a group from each unclaimed
anchor, and emit the group only when it has more than one member. -/
def findSimilarImagesOuter (t : ℚ) :
    List (Nat × ImageInfo) → List Nat → List (List ImageInfo)
  | [], _ => []
  | (i, img) :: rest, used =>
    if i ∈ used then
      findSimilarImagesOuter t rest used
    else
      let r := findSimilarImagesInner t img rest used
      if 0 < r.1.length then
        (img :: r.1) :: findSimilarImagesOuter t rest r.2
      else
        findSimilarImagesOuter t rest r.2

/-- findSimilarImages (src/main.go lines 123-153): greedy single-pass
clustering of the image list, with the claimed-index map initially empty. -/
def findSimilarImages (images : List ImageInfo) (similarityThreshold : ℚ) :
    List (List ImageInfo) :=
  findSimilarImagesOuter similarityThreshold images.enum []

/-- Recursive restatement of findSimilarImages used for the proofs: the head
anchors a group holding every similar member of the tail, and the pass
recurses on the non-similar remainder.  Proven equal to the indexed
embedding in findSimilarImages_eq_groupRec. -/
def groupRec (t : ℚ) : List ImageInfo → List (List ImageInfo)
  | [] => []
  | x :: rest =>
    let matched := rest.filter (fun y => isSimilarTo t x y)
    let remainder := groupRec t (rest.filter (fun y => !isSimilarTo t x y))
    if matched.isEmpty then remainder else (x :: matched) :: remainder
termination_by l => l.length
decreasing_by
  exact Nat.lt_succ_of_le (List.length_filter_le _ _)

/-- A float64 value as produced by scanning with `fmt.Sscanf(_, "%f", _)`:
Go's fmt scanner accepts not only ordinary decimal numbers but also the
special tokens NaN and Inf/Infinity (with optional sign), so the scanned
value is NaN, an infinity with a sign, or a finite value (finite values, and
the finite results of the arithmetic performed on them here, are modelled as
exact rationals). -/
inductive GoFloat where
  | nan : GoFloat
  | inf : Bool → GoFloat
  | finite : ℚ → GoFloat
deriving DecidableEq

/-- IEEE-754 ordering on scanned float64 values, as Go evaluates
`percentage < 0 || percentage > 100`: every comparison involving NaN is
false, negative infinity is below and positive infinity above everything
else, and finite values compare as rationals. -/
def GoFloat.lt : GoFloat → GoFloat → Bool
  | GoFloat.nan, _ => false
  | _, GoFloat.nan => false
  | GoFloat.inf true, GoFloat.inf true => false
  | GoFloat.inf true, _ => true
  | GoFloat.inf false, _ => false
  | GoFloat.finite _, GoFloat.inf false => true
  | GoFloat.finite _, GoFloat.inf true => false
  | GoFloat.finite q, GoFloat.finite r => decide (q < r)

/-- Float64 division by 100 as in `return percentage / 100, nil`: NaN and
the infinities are preserved, a finite value is divided exactly (the
rational model of the float64 rounding). -/
def GoFloat.divBy100 : GoFloat → GoFloat
  | GoFloat.nan => GoFloat.nan
  | GoFloat.inf b => GoFloat.inf b
  | GoFloat.finite q => GoFloat.finite (q / 100)

/-- The notion "a number in [0, 100]" used by the specification for the
parsed percentage, stated over the scanned float value (this definition
follows the spec's words, for comparison with the code's own range check):
true exactly for finite values between 0 and 100. -/
def GoFloat.isNumberIn0To100 : GoFloat → Bool
  | GoFloat.finite q => decide (0 ≤ q ∧ q ≤ 100)
  | _ => false

/-- parsePercentage (src/main.go lines 74-84).  The call
`fmt.Sscanf(percentageStr, "%f", &percentage)` is an external
standard-library call, modelled by its contract as `scanned : Option GoFloat`
(`none` exactly when the scanner fails to read a float token, where NaN and
the signed infinities are valid float tokens for the fmt scanner): a scan
error is returned as is, the range check `percentage < 0 || percentage > 100`
is evaluated with float comparison semantics (so NaN passes it, both
comparisons being false), and otherwise the returned threshold is the
percentage divided by 100. -/
def parsePercentage (scanned : Option GoFloat) : Except String GoFloat :=
  match scanned with
  | none => Except.error "scan error"
  | some percentage =>
    if GoFloat.lt percentage (GoFloat.finite 0) ||
        GoFloat.lt (GoFloat.finite 100) percentage then
      Except.error "percentage must be between 0 and 100"
    else
      Except.ok percentage.divBy100

/-- Argument handling of main (src/main.go lines 33-46): when
parsePercentage fails, main prints the error and returns before loadImages
and findSimilarImages run; otherwise the scan and grouping proceed with the
parsed threshold.  A finite threshold feeds findSimilarImages directly.  A
NaN threshold makes every `similarity >= threshold` comparison false, so no
group reaches two members and the grouping returns no groups, modelled as
the empty list (findSimilarImages_of_one_lt proves the same shape for any
threshold above every similarity).  The infinite thresholds can never come
out of parsePercentage (parsePercentage_never_inf); their arm exists only
for totality and is given the same empty value. -/
def runPipeline (scanned : Option GoFloat) (images : List ImageInfo) :
    Option (List (List ImageInfo)) :=
  match parsePercentage scanned with
  | Except.error _ => none
  | Except.ok (GoFloat.finite t) => some (findSimilarImages images t)
  | Except.ok GoFloat.nan => some []
  | Except.ok (GoFloat.inf _) => some []

/-- The comparator closure passed to sort.Slice in deleteSimilarImages
(src/main.go lines 156-168), read with `group[0]` as the group's anchor:
on a distance error it logs and returns false, otherwise it compares the two
distances to the anchor.  Caveat, recorded for the reclamation claims: the
Go closure reads `group[0]` of the slice as sort.Slice permutes it in place,
so even this fixed-anchor comparator is an optimistic reading whenever the
sort moves the element at index 0. -/
def goLess (anchor a b : ImageInfo) : Bool :=
  match a.Hash.Distance anchor.Hash with
  | Except.error _ => false
  | Except.ok dI =>
    match b.Hash.Distance anchor.Hash with
    | Except.error _ => false
    | Except.ok dJ => decide (dI < dJ)

/-- Orderings admissible for sort.Slice output: no element of the list is
strictly less, per the comparator, than an element occurring before it. -/
def SortedByLess (less : ImageInfo → ImageInfo → Bool) (l : List ImageInfo) : Prop :=
  List.Pairwise (fun a b => less b a = false) l

/-- Documented contract of the external sort.Slice call: the output is a
permutation of the input admissible for the comparator.  The contract
explicitly does not guarantee stability (equal elements may be reversed from
their original order); Go offers sort.SliceStable for that. -/
def SortSliceSpec (less : ImageInfo → ImageInfo → Bool)
    (input output : List ImageInfo) : Prop :=
  input.Perm output ∧ SortedByLess less output

/-- Deletion loop of deleteSimilarImages (src/main.go lines 170-182), run on
the members at sorted index >= 1: stat the file, add its size to the
accumulator, remove it; any stat or remove error returns 0 together with the
error, discarding the accumulated count.  The paths removed so far are
returned alongside to observe the os.Remove side effects. -/
def deleteLoop (stat : String → Except String Int)
    (remove : String → Except String Unit) :
    List ImageInfo → Int → List String → Int × List String × Option String
  | [], acc, removed => (acc, removed.reverse, none)
  | img :: rest, acc, removed =>
    match stat img.Path with
    | Except.error e => (0, removed.reverse, some e)
    | Except.ok size =>
      match remove img.Path with
      | Except.error e => (0, removed.reverse, some e)
      | Except.ok _ => deleteLoop stat remove rest (acc + size) (img.Path :: removed)

/-- deleteSimilarImages (src/main.go lines 155-183) after its sort.Slice
call: the function first sorts the group in place (modelled by the
SortSliceSpec relation, since sort.Slice is only contractually constrained)
and then runs the deletion loop from index 1 of the sorted group. -/
def deleteSimilarImages (stat : String → Except String Int)
    (remove : String → Except String Unit) (sortedGroup : List ImageInfo) :
    Int × List String × Option String :=
  deleteLoop stat remove sortedGroup.tail 0 []

/-- Deletion driver of main (src/main.go lines 58-71): for every group of
more than one member, reclaim it; a reclaim error is printed and the loop
continues, leaving the running total unchanged; a success adds the group's
freed bytes to the running total. -/
def totalSaved (stat : String → Except String Int)
    (remove : String → Except String Unit)
    (sortedGroups : List (List ImageInfo)) : Int :=
  sortedGroups.foldl
    (fun acc g =>
      if 1 < g.length then
        match deleteSimilarImages stat remove g with
        | (saved, _, none) => acc + saved
        | (_, _, some _) => acc
      else acc)
    0

/-! Concrete test fixtures: images with explicit 64-bit hash words, used to
instantiate the general theorems at computable inputs and to exhibit the
sort.Slice contract behaviour on a 13-member group. -/

/-- Builds an ImageInfo with the given path and hash word, of the kind tag 0
(all hashes in the program are PerceptionHash values, so they share a kind). -/
def mkImg (p : String) (h : Nat) : ImageInfo :=
  { Path := p, Hash := { hash := h, kind := 0 } }

/-- Anchor fixture: hash 0. -/
def imgA : ImageInfo := mkImg "a" 0

/-- Fixture at Hamming distance 3 from imgA and 6 from imgY. -/
def imgX : ImageInfo := mkImg "x" 7

/-- Fixture at Hamming distance 3 from imgA and 6 from imgX. -/
def imgY : ImageInfo := mkImg "y" 56

/-- Fixture far from imgA, imgX and imgY: 40 set bits. -/
def imgW : ImageInfo := mkImg "w" (2 ^ 40 - 1)

/-- Fixture whose hash kind differs from imgA's, so that Distance errors. -/
def imgB1 : ImageInfo := { Path := "b1", Hash := { hash := 0, kind := 1 } }

/-- A 13-member group whose second member is an exact duplicate of the anchor
(Hamming distance 0); the others are at distances 1..11.  Thirteen members
matter because Go's sort.Slice runs plain insertion sort only up to 12
elements; at 13 the pdqsort machinery applies, for which only the
sort.Slice contract (an admissible permutation, stability not guaranteed)
can be assumed. -/
def c1Group : List ImageInfo :=
  [mkImg "p0" 0, mkImg "p1" 0, mkImg "p2" 1, mkImg "p3" 3, mkImg "p4" 7,
   mkImg "p5" 15, mkImg "p6" 31, mkImg "p7" 63, mkImg "p8" 127, mkImg "p9" 255,
   mkImg "p10" 511, mkImg "p11" 1023, mkImg "p12" 2047]

/-- An output admitted by the sort.Slice contract for c1Group under the
deleteSimilarImages comparator: the duplicate "p1" is placed before the
anchor "p0" (both at distance 0 to the anchor, so either tie order is an
admissible sort). -/
def c1Sorted : List ImageInfo :=
  [mkImg "p1" 0, mkImg "p0" 0, mkImg "p2" 1, mkImg "p3" 3, mkImg "p4" 7,
   mkImg "p5" 15, mkImg "p6" 31, mkImg "p7" 63, mkImg "p8" 127, mkImg "p9" 255,
   mkImg "p10" 511, mkImg "p11" 1023, mkImg "p12" 2047]

/-- Stat oracle fixture: every file exists with size 7. -/
def statSeven : String → Except String Int := fun _ => Except.ok 7

/-- Remove oracle fixture: removing "q3" fails, everything else succeeds. -/
def removeFailQ3 : String → Except String Unit := fun p =>
  if p = "q3" then Except.error "remove failed" else Except.ok ()

/-- A reclaim group fixture whose third member's removal fails. -/
def gBad : List ImageInfo := [mkImg "q1" 0, mkImg "q2" 0, mkImg "q3" 0]

/-- A reclaim group fixture on which every stat and remove succeeds. -/
def gGood : List ImageInfo := [mkImg "r1" 0, mkImg "r2" 0]

/-! Helper lemmas about the hash distance. -/

theorem popcnt_foldl_le (n : Nat) :
    ∀ (L : List Nat) (acc : Nat),
      L.foldl (fun acc i => acc + n / 2 ^ i % 2) acc ≤ acc + L.length := by
  intro L
  induction L with
  | nil => intro acc; simp
  | cons i L ih =>
    intro acc
    have hbit : n / 2 ^ i % 2 ≤ 1 := Nat.le_of_lt_succ (Nat.mod_lt _ (by decide))
    calc (i :: L).foldl (fun acc i => acc + n / 2 ^ i % 2) acc
        = L.foldl (fun acc i => acc + n / 2 ^ i % 2) (acc + n / 2 ^ i % 2) := rfl
      _ ≤ (acc + n / 2 ^ i % 2) + L.length := ih _
      _ ≤ acc + (i :: L).length := by simp [List.length_cons]; omega

theorem popcnt_le_64 (n : Nat) : popcnt n ≤ 64 := by
  have h := popcnt_foldl_le n (List.range 64) 0
  simpa [popcnt] using h

theorem Distance_le_64 {h o : ImageHash} {d : Nat}
    (hd : h.Distance o = Except.ok d) : d ≤ 64 := by
  unfold ImageHash.Distance at hd
  split at hd
  · cases hd
    exact popcnt_le_64 _
  · cases hd

theorem Distance_ok_of_kind_eq {h o : ImageHash} (hk : h.kind = o.kind) :
    h.Distance o = Except.ok (popcnt (h.hash % 2 ^ 64 ^^^ o.hash % 2 ^ 64)) := by
  unfold ImageHash.Distance
  simp [hk]

/-! Characterization of the indexed grouping loops. -/

theorem snd_eq_of_nodup_fst :
    ∀ {l : List (Nat × ImageInfo)}, (l.map Prod.fst).Nodup →
      ∀ {k : Nat} {y z : ImageInfo}, (k, y) ∈ l → (k, z) ∈ l → y = z := by
  intro l
  induction l with
  | nil => intro _ k y z h1; cases h1
  | cons hd tl ih =>
    intro hnd k y z h1 h2
    rw [List.map_cons, List.nodup_cons] at hnd
    rcases List.mem_cons.mp h1 with h1 | h1 <;>
      rcases List.mem_cons.mp h2 with h2 | h2
    · rw [← h1] at h2; exact (Prod.mk.injEq _ _ _ _ ▸ h2.symm).2
    · exfalso
      apply hnd.1
      rw [← h1]
      exact List.mem_map.mpr ⟨(k, z), h2, rfl⟩
    · exfalso
      apply hnd.1
      rw [← h2]
      exact List.mem_map.mpr ⟨(k, y), h1, rfl⟩
    · exact ih hnd.2 h1 h2

theorem findSimilarImagesInner_fst (t : ℚ) (anchor : ImageInfo) :
    ∀ (xs : List (Nat × ImageInfo)) (used : List Nat),
      (xs.map Prod.fst).Nodup →
      (findSimilarImagesInner t anchor xs used).1 =
        (xs.filter
          (fun p => !decide (p.1 ∈ used) && isSimilarTo t anchor p.2)).map Prod.snd := by
  intro xs
  induction xs with
  | nil => intro used _; simp [findSimilarImagesInner]
  | cons hd tl ih =>
    intro used hnd
    obtain ⟨j, img⟩ := hd
    rw [List.map_cons, List.nodup_cons] at hnd
    by_cases hj : j ∈ used
    · rw [findSimilarImagesInner]
      simp only [if_pos hj]
      rw [ih used hnd.2, List.filter_cons_of_neg (by simp [hj])]
    · by_cases hs : isSimilarTo t anchor img
      · rw [findSimilarImagesInner]
        simp only [if_neg hj, if_pos hs]
        rw [List.filter_cons_of_pos (by simp [hj, hs]), List.map_cons]
        congr 1
        rw [ih (j :: used) hnd.2]
        congr 1
        apply List.filter_congr
        intro p hp
        have hpj : p.1 ≠ j := by
          intro hcontra
          apply hnd.1
          rw [← hcontra]
          exact List.mem_map.mpr ⟨p, hp, rfl⟩
        simp [List.mem_cons, hpj]
      · rw [findSimilarImagesInner]
        simp only [if_neg hj, if_neg hs]
        rw [ih used hnd.2, List.filter_cons_of_neg (by simp [hs])]

theorem findSimilarImagesInner_snd_mem (t : ℚ) (anchor : ImageInfo) :
    ∀ (xs : List (Nat × ImageInfo)) (used : List Nat) (k : Nat),
      k ∈ (findSimilarImagesInner t anchor xs used).2 ↔
        k ∈ used ∨ ∃ y, (k, y) ∈ xs ∧ k ∉ used ∧ isSimilarTo t anchor y = true := by
  intro xs
  induction xs with
  | nil =>
    intro used k
    simp [findSimilarImagesInner]
  | cons hd tl ih =>
    intro used k
    obtain ⟨j, img⟩ := hd
    by_cases hj : j ∈ used
    · rw [findSimilarImagesInner]
      simp only [if_pos hj]
      rw [ih used k]
      constructor
      · rintro (h | ⟨y, hy, hk, hs⟩)
        · exact Or.inl h
        · exact Or.inr ⟨y, List.mem_cons_of_mem _ hy, hk, hs⟩
      · rintro (h | ⟨y, hy, hk, hs⟩)
        · exact Or.inl h
        · rcases List.mem_cons.mp hy with hy | hy
          · exfalso
            apply hk
            have : k = j := (Prod.mk.injEq _ _ _ _ ▸ hy).1
            rw [this]; exact hj
          · exact Or.inr ⟨y, hy, hk, hs⟩
    · by_cases hs : isSimilarTo t anchor img
      · rw [findSimilarImagesInner]
        simp only [if_neg hj, if_pos hs]
        rw [ih (j :: used) k]
        by_cases hkj : k = j
        · subst hkj
          constructor
          · intro _
            exact Or.inr ⟨img, List.mem_cons_self _ _, hj, hs⟩
          · intro _
            exact Or.inl (List.mem_cons_self _ _)
        · constructor
          · rintro (h | ⟨y, hy, hk, hsy⟩)
            · rcases List.mem_cons.mp h with h | h
              · exact absurd h hkj
              · exact Or.inl h
            · have hknu : k ∉ used := fun hc => hk (List.mem_cons_of_mem _ hc)
              exact Or.inr ⟨y, List.mem_cons_of_mem _ hy, hknu, hsy⟩
          · rintro (h | ⟨y, hy, hk, hsy⟩)
            · exact Or.inl (List.mem_cons_of_mem _ h)
            · rcases List.mem_cons.mp hy with hy | hy
              · exact absurd (Prod.mk.injEq _ _ _ _ ▸ hy).1 hkj
              · refine Or.inr ⟨y, hy, ?_, hsy⟩
                intro hc
                rcases List.mem_cons.mp hc with hc | hc
                · exact hkj hc
                · exact hk hc
      · rw [findSimilarImagesInner]
        simp only [if_neg hj, if_neg hs]
        rw [ih used k]
        constructor
        · rintro (h | ⟨y, hy, hk, hsy⟩)
          · exact Or.inl h
          · exact Or.inr ⟨y, List.mem_cons_of_mem _ hy, hk, hsy⟩
        · rintro (h | ⟨y, hy, hk, hsy⟩)
          · exact Or.inl h
          · rcases List.mem_cons.mp hy with hy | hy
            · exfalso
              have : y = img := (Prod.mk.injEq _ _ _ _ ▸ hy).2
              rw [this] at hsy
              exact hs hsy
            · exact Or.inr ⟨y, hy, hk, hsy⟩

theorem groupRec_nil (t : ℚ) : groupRec t [] = [] := by
  rw [groupRec]

theorem groupRec_cons (t : ℚ) (x : ImageInfo) (rest : List ImageInfo) :
    groupRec t (x :: rest) =
      if (rest.filter (fun y => isSimilarTo t x y)).isEmpty then
        groupRec t (rest.filter (fun y => !isSimilarTo t x y))
      else
        (x :: rest.filter (fun y => isSimilarTo t x y)) ::
          groupRec t (rest.filter (fun y => !isSimilarTo t x y)) := by
  rw [groupRec]

theorem findSimilarImagesOuter_eq (t : ℚ) :
    ∀ (xs : List (Nat × ImageInfo)) (used : List Nat),
      (xs.map Prod.fst).Nodup →
      findSimilarImagesOuter t xs used =
        groupRec t ((xs.filter (fun p => !decide (p.1 ∈ used))).map Prod.snd) := by
  intro xs
  induction xs with
  | nil => intro used _; simp [findSimilarImagesOuter, groupRec_nil]
  | cons hd tl ih =>
    intro used hnd
    obtain ⟨i, x⟩ := hd
    rw [List.map_cons, List.nodup_cons] at hnd
    by_cases hi : i ∈ used
    · rw [findSimilarImagesOuter]
      simp only [if_pos hi]
      rw [ih used hnd.2, List.filter_cons_of_neg (by simp [hi])]
    · rw [findSimilarImagesOuter]
      simp only [if_neg hi]
      rw [List.filter_cons_of_pos (by simp [hi]), List.map_cons, groupRec_cons]
      have hr1 : (findSimilarImagesInner t x tl used).1 =
          (tl.filter (fun p => !decide (p.1 ∈ used) && isSimilarTo t x p.2)).map Prod.snd :=
        findSimilarImagesInner_fst t x tl used hnd.2
      have hmatched :
          ((tl.filter (fun p => !decide (p.1 ∈ used))).map Prod.snd).filter
              (fun y => isSimilarTo t x y) =
            (tl.filter (fun p => !decide (p.1 ∈ used) && isSimilarTo t x p.2)).map Prod.snd := by
        rw [List.filter_map, List.filter_filter]
        congr 1
        apply List.filter_congr
        intro p _
        simp [Function.comp, Bool.and_comm]
      have hunmatched :
          ((tl.filter (fun p => !decide (p.1 ∈ used))).map Prod.snd).filter
              (fun y => !isSimilarTo t x y) =
            (tl.filter (fun p => !decide (p.1 ∈ used) && !isSimilarTo t x p.2)).map Prod.snd := by
        rw [List.filter_map, List.filter_filter]
        congr 1
        apply List.filter_congr
        intro p _
        simp [Function.comp, Bool.and_comm]
      have hused :
          tl.filter (fun p => !decide (p.1 ∈ (findSimilarImagesInner t x tl used).2)) =
            tl.filter (fun p => !decide (p.1 ∈ used) && !isSimilarTo t x p.2) := by
        apply List.filter_congr
        intro p hp
        obtain ⟨pa, pb⟩ := p
        have hmem := findSimilarImagesInner_snd_mem t x tl used pa
        by_cases hpu : pa ∈ used
        · have hin : pa ∈ (findSimilarImagesInner t x tl used).2 := hmem.mpr (Or.inl hpu)
          simp [hin, hpu]
        · by_cases hps : isSimilarTo t x pb
          · have hin : pa ∈ (findSimilarImagesInner t x tl used).2 :=
              hmem.mpr (Or.inr ⟨pb, hp, hpu, hps⟩)
            simp [hin, hps]
          · have hout : pa ∉ (findSimilarImagesInner t x tl used).2 := by
              intro hc
              rcases hmem.mp hc with hc | ⟨y, hy, _, hsy⟩
              · exact hpu hc
              · have : y = pb := snd_eq_of_nodup_fst hnd.2 hy hp
                rw [this] at hsy
                exact hps hsy
            simp [hout, hpu, hps]
      have hrec : findSimilarImagesOuter t tl (findSimilarImagesInner t x tl used).2 =
          groupRec t
            (((tl.filter (fun p => !decide (p.1 ∈ used))).map Prod.snd).filter
              (fun y => !isSimilarTo t x y)) := by
        rw [ih _ hnd.2, hused, hunmatched]
      by_cases hm : (tl.filter (fun p => !decide (p.1 ∈ used) && isSimilarTo t x p.2)) = []
      · have hempty :
            (((tl.filter (fun p => !decide (p.1 ∈ used))).map Prod.snd).filter
              (fun y => isSimilarTo t x y)).isEmpty = true := by
          rw [hmatched, hm]
          rfl
        rw [if_pos hempty]
        have hlen : ¬ 0 < (findSimilarImagesInner t x tl used).1.length := by
          rw [hr1, hm]
          simp
        rw [if_neg hlen]
        exact hrec
      · have hempty :
            (((tl.filter (fun p => !decide (p.1 ∈ used))).map Prod.snd).filter
              (fun y => isSimilarTo t x y)).isEmpty = false := by
          rw [hmatched]
          simp [hm]
        rw [hempty]
        simp only [Bool.false_eq_true, if_false]
        have hlen : 0 < (findSimilarImagesInner t x tl used).1.length := by
          rw [hr1]
          simp [List.length_pos, hm]
        rw [if_pos hlen]
        rw [hr1, hmatched, hrec]

theorem findSimilarImages_eq_groupRec (images : List ImageInfo) (t : ℚ) :
    findSimilarImages images t = groupRec t images := by
  unfold findSimilarImages
  rw [findSimilarImagesOuter_eq t images.enum []
    (by rw [List.enum_map_fst]; exact List.nodup_range _)]
  congr 1
  have : images.enum.filter (fun p => !decide (p.1 ∈ ([] : List Nat))) = images.enum := by
    apply List.filter_eq_self.mpr
    intro p _
    simp
  rw [this, List.enum_map_snd]

/-! Structural lemmas about groupRec. -/

theorem groupRec_shape (t : ℚ) :
    ∀ (l : List ImageInfo), ∀ g ∈ groupRec t l,
      ∃ a m, g = a :: m ∧ m ≠ [] ∧ (∀ y ∈ m, isSimilarTo t a y = true) ∧
        a ∈ l ∧ ∀ y ∈ m, y ∈ l := by
  intro l
  induction l using groupRec.induct t with
  | case1 => intro g hg; rw [groupRec_nil] at hg; cases hg
  | case2 x rest matched hempty ih =>
    intro g hg
    rw [groupRec_cons, if_pos hempty] at hg
    obtain ⟨a, m, hgm, hne, hsim, hmem, hmemall⟩ := ih g hg
    exact ⟨a, m, hgm, hne, hsim,
      List.mem_cons_of_mem _ (List.mem_of_mem_filter hmem),
      fun y hy => List.mem_cons_of_mem _ (List.mem_of_mem_filter (hmemall y hy))⟩
  | case3 x rest matched hnempty ih =>
    intro g hg
    rw [groupRec_cons, if_neg hnempty] at hg
    rcases List.mem_cons.mp hg with hg | hg
    · refine ⟨x, rest.filter (fun y => isSimilarTo t x y), hg, ?_, ?_, ?_, ?_⟩
      · intro hc
        exact hnempty (List.isEmpty_iff.mpr hc)
      · intro y hy
        exact List.of_mem_filter hy
      · exact List.mem_cons_self _ _
      · intro y hy
        exact List.mem_cons_of_mem _ (List.mem_of_mem_filter hy)
    · obtain ⟨a, m, hgm, hne, hsim, hmem, hmemall⟩ := ih g hg
      exact ⟨a, m, hgm, hne, hsim,
        List.mem_cons_of_mem _ (List.mem_of_mem_filter hmem),
        fun y hy => List.mem_cons_of_mem _ (List.mem_of_mem_filter (hmemall y hy))⟩

theorem groupRec_flatten_subperm (t : ℚ) :
    ∀ (l : List ImageInfo), (groupRec t l).flatten.Subperm l := by
  intro l
  induction l using groupRec.induct t with
  | case1 => rw [groupRec_nil]; exact List.nil_subperm
  | case2 x rest matched hempty ih =>
    rw [groupRec_cons, if_pos hempty]
    exact ih.trans ((List.filter_sublist rest).subperm.cons_right x)
  | case3 x rest matched hnempty ih =>
    rw [groupRec_cons, if_neg hnempty, List.flatten_cons]
    have h2 : (rest.filter (fun y => isSimilarTo t x y) ++
        (groupRec t (rest.filter (fun y => !isSimilarTo t x y))).flatten).Subperm rest := by
      have h3 := (List.subperm_append_left (rest.filter (fun y => isSimilarTo t x y))).mpr ih
      exact h3.trans (List.filter_append_perm (fun y => isSimilarTo t x y) rest).subperm
    rw [List.cons_append]
    exact (List.subperm_cons x).mpr h2

theorem groupRec_excludes_nonmatching (t : ℚ) :
    ∀ (l : List ImageInfo) (a : ImageInfo),
      (∀ b ∈ l, isSimilarTo t a b = false ∧ isSimilarTo t b a = false) →
      ∀ g ∈ groupRec t l, a ∉ g := by
  intro l
  induction l using groupRec.induct t with
  | case1 =>
    intro a _ g hg
    rw [groupRec_nil] at hg
    cases hg
  | case2 x rest matched hempty ih =>
    intro a ha g hg
    rw [groupRec_cons, if_pos hempty] at hg
    refine ih a ?_ g hg
    intro b hb
    exact ha b (List.mem_cons_of_mem _ (List.mem_of_mem_filter hb))
  | case3 x rest matched hnempty ih =>
    intro a ha g hg
    rw [groupRec_cons, if_neg hnempty] at hg
    have hrec : ∀ g ∈ groupRec t (rest.filter (fun y => !isSimilarTo t x y)), a ∉ g := by
      refine ih a ?_
      intro b hb
      exact ha b (List.mem_cons_of_mem _ (List.mem_of_mem_filter hb))
    rcases List.mem_cons.mp hg with hg | hg
    · rw [hg]
      intro hc
      rcases List.mem_cons.mp hc with hc | hc
      · have hne : rest.filter (fun y => isSimilarTo t x y) ≠ [] := by
          intro h0
          exact hnempty (List.isEmpty_iff.mpr h0)
        obtain ⟨y, hy⟩ := List.exists_mem_of_ne_nil _ hne
        have hy2 : isSimilarTo t a y = true := by
          rw [hc]
          exact List.of_mem_filter hy
        have hy3 : y ∈ rest := List.mem_of_mem_filter hy
        have := (ha y (List.mem_cons_of_mem _ hy3)).1
        rw [this] at hy2
        cases hy2
      · have hsim : isSimilarTo t x a = true := List.of_mem_filter hc
        have := (ha x (List.mem_cons_self _ _)).2
        rw [this] at hsim
        cases hsim
    · exact hrec g hg

theorem groupRec_mem_subperm (t : ℚ) (l : List ImageInfo) :
    ∀ g ∈ groupRec t l, g.Subperm l := by
  intro g hg
  exact (List.sublist_flatten_of_mem hg).subperm.trans (groupRec_flatten_subperm t l)

theorem groupRec_excludes_unmatched (t : ℚ) (pre post : List ImageInfo) (a : ImageInfo)
    (ha : ∀ b ∈ pre ++ post, isSimilarTo t a b = false ∧ isSimilarTo t b a = false) :
    ∀ g ∈ groupRec t (pre ++ a :: post), a ∉ g := by
  intro g hg hag
  obtain ⟨x, m, hgm, hne, hsim, _, _⟩ := groupRec_shape t _ g hg
  have hsubg : g.Subperm (pre ++ a :: post) := groupRec_mem_subperm t _ g hg
  have hother : ∀ c ∈ g, c ≠ a → c ∈ pre ++ post := by
    intro c hc hca
    rcases List.mem_append.mp (hsubg.subset hc) with h | h
    · exact List.mem_append.mpr (Or.inl h)
    · rcases List.mem_cons.mp h with h | h
      · exact absurd h hca
      · exact List.mem_append.mpr (Or.inr h)
  have hdup : 2 ≤ g.count a → a ∈ pre ++ post := by
    intro h2
    have hc := hsubg.count_le a
    rw [List.count_append, List.count_cons] at hc
    simp only [beq_self_eq_true, if_true] at hc
    have hpp : 0 < (pre ++ post).count a := by
      rw [List.count_append]
      omega
    exact List.count_pos_iff.mp hpp
  rw [hgm] at hag
  rcases List.mem_cons.mp hag with hax | ham
  · obtain ⟨y, hy⟩ := List.exists_mem_of_ne_nil m hne
    have hsimy : isSimilarTo t x y = true := hsim y hy
    rw [← hax] at hsimy
    by_cases hya : y = a
    · rw [hya] at hsimy
      have h2 : 2 ≤ g.count a := by
        rw [hgm, List.count_cons]
        have h1 : 0 < m.count a := List.count_pos_iff.mpr (hya ▸ hy)
        have hx : (x == a) = true := beq_iff_eq.mpr hax.symm
        rw [hx]
        simp only [if_true]
        omega
      have hfalse := (ha a (hdup h2)).1
      rw [hfalse] at hsimy
      simp at hsimy
    · have hyg : y ∈ g := by
        rw [hgm]
        exact List.mem_cons_of_mem _ hy
      have hfalse := (ha y (hother y hyg hya)).1
      rw [hfalse] at hsimy
      simp at hsimy
  · have hsima : isSimilarTo t x a = true := hsim a ham
    by_cases hxa : x = a
    · rw [hxa] at hsima
      have h2 : 2 ≤ g.count a := by
        rw [hgm, List.count_cons]
        have h1 : 0 < m.count a := List.count_pos_iff.mpr ham
        have hx : (x == a) = true := beq_iff_eq.mpr hxa
        rw [hx]
        simp only [if_true]
        omega
      have hfalse := (ha a (hdup h2)).2
      rw [hfalse] at hsima
      simp at hsima
    · have hxg : x ∈ g := by
        rw [hgm]
        exact List.mem_cons_self _ _
      have hfalse := (ha x (hother x hxg hxa)).2
      rw [hfalse] at hsima
      simp at hsima

/-! Helper lemmas about the deletion loop and the driver total. -/

theorem deleteLoop_error_zero (stat : String → Except String Int)
    (remove : String → Except String Unit) :
    ∀ (l : List ImageInfo) (acc : Int) (rm0 : List String),
      ((deleteLoop stat remove l acc rm0).2.2).isSome →
      (deleteLoop stat remove l acc rm0).1 = 0 := by
  intro l
  induction l with
  | nil =>
    intro acc rm0 h
    simp [deleteLoop] at h
  | cons img rest ih =>
    intro acc rm0 h
    rw [deleteLoop] at h ⊢
    cases hs : stat img.Path with
    | error e => simp [hs]
    | ok size =>
      cases hr : remove img.Path with
      | error e => simp [hs, hr]
      | ok u =>
        simp only [hs, hr] at h ⊢
        exact ih _ _ h

theorem deleteLoop_stops_at_failure (stat : String → Except String Int)
    (remove : String → Except String Unit) (f : ImageInfo)
    (hf : (∃ e, stat f.Path = Except.error e) ∨
      ((∃ s, stat f.Path = Except.ok s) ∧ ∃ e, remove f.Path = Except.error e)) :
    ∀ (pre : List ImageInfo),
      (∀ x ∈ pre, (∃ s, stat x.Path = Except.ok s) ∧ remove x.Path = Except.ok ()) →
      ∀ (post : List ImageInfo) (acc : Int) (rm0 : List String),
        ∃ e, deleteLoop stat remove (pre ++ f :: post) acc rm0 =
          (0, rm0.reverse ++ pre.map (fun i => i.Path), some e) := by
  intro pre
  induction pre with
  | nil =>
    intro _ post acc rm0
    rw [List.nil_append, deleteLoop]
    rcases hf with ⟨e, he⟩ | ⟨⟨s, hs⟩, ⟨e, he⟩⟩
    · exact ⟨e, by simp [he]⟩
    · exact ⟨e, by simp [hs, he]⟩
  | cons x pre ih =>
    intro hpre post acc rm0
    have hx := hpre x (List.mem_cons_self _ _)
    obtain ⟨⟨s, hs⟩, hr⟩ := hx
    rw [List.cons_append, deleteLoop]
    simp only [hs, hr]
    obtain ⟨e, he⟩ := ih (fun y hy => hpre y (List.mem_cons_of_mem _ hy)) post
      (acc + s) (x.Path :: rm0)
    refine ⟨e, ?_⟩
    rw [he]
    simp [List.reverse_cons]

theorem totalSaved_eq_sum (stat : String → Except String Int)
    (remove : String → Except String Unit) :
    ∀ (gs : List (List ImageInfo)),
      totalSaved stat remove gs =
        (gs.map (fun g =>
          if 1 < g.length then
            match deleteSimilarImages stat remove g with
            | (saved, _, none) => saved
            | (_, _, some _) => 0
          else 0)).sum := by
  have hstep : ∀ (acc : Int) (g : List ImageInfo),
      (if 1 < g.length then
        match deleteSimilarImages stat remove g with
        | (saved, _, none) => acc + saved
        | (_, _, some _) => acc
      else acc) =
      acc + (if 1 < g.length then
        match deleteSimilarImages stat remove g with
        | (saved, _, none) => saved
        | (_, _, some _) => 0
      else 0) := by
    intro acc g
    by_cases hl : 1 < g.length
    · rw [if_pos hl, if_pos hl]
      rcases hd : deleteSimilarImages stat remove g with ⟨saved, rm, err⟩
      cases err <;> simp
    · rw [if_neg hl, if_neg hl]
      omega
  have haux : ∀ (gs : List (List ImageInfo)) (acc : Int),
      gs.foldl (fun acc g =>
        if 1 < g.length then
          match deleteSimilarImages stat remove g with
          | (saved, _, none) => acc + saved
          | (_, _, some _) => acc
        else acc) acc =
      acc + (gs.map (fun g =>
        if 1 < g.length then
          match deleteSimilarImages stat remove g with
          | (saved, _, none) => saved
          | (_, _, some _) => 0
        else 0)).sum := by
    intro gs
    induction gs with
    | nil => intro acc; simp
    | cons g gs ih =>
      intro acc
      rw [List.foldl_cons, hstep acc g, ih, List.map_cons, List.sum_cons]
      ring
  intro gs
  have h := haux gs 0
  rw [totalSaved, h]
  ring

/-! Helper lemmas about the similarity formula. -/

theorem isSimilarTo_of_ok {a b : ImageInfo} {d : Nat} (t : ℚ)
    (h : a.Hash.Distance b.Hash = Except.ok d) :
    isSimilarTo t a b = decide ((1 : ℚ) - (d : ℚ) / 64 ≥ t) := by
  unfold isSimilarTo
  rw [h]
  rfl

theorem isSimilarTo_of_error {a b : ImageInfo} {e : String} (t : ℚ)
    (h : a.Hash.Distance b.Hash = Except.error e) :
    isSimilarTo t a b = false := by
  unfold isSimilarTo
  rw [h]

theorem one_sub_div_ge_one_iff (d : Nat) : ((1 : ℚ) - (d : ℚ) / 64 ≥ 1) ↔ d = 0 := by
  constructor
  · intro h
    have hd : (d : ℚ) ≤ 0 := by linarith [h]
    have : (d : ℚ) = 0 := le_antisymm hd (by positivity)
    exact_mod_cast this
  · intro h
    rw [h]
    norm_num

theorem one_sub_div_ge_zero {d : Nat} (hd : d ≤ 64) : (1 : ℚ) - (d : ℚ) / 64 ≥ 0 := by
  have h1 : (d : ℚ) ≤ 64 := by exact_mod_cast hd
  have h2 : (d : ℚ) / 64 ≤ 1 := by
    rw [div_le_one (by norm_num : (0:ℚ) < 64)]
    exact h1
  linarith

theorem isSimilarTo_of_one_lt {t : ℚ} (ht : 1 < t) (a b : ImageInfo) :
    isSimilarTo t a b = false := by
  unfold isSimilarTo
  cases hd : a.Hash.Distance b.Hash with
  | error e => rfl
  | ok d =>
    simp only [decide_eq_false_iff_not]
    intro hc
    unfold similarity at hc
    have h0 : (0 : ℚ) ≤ (d : ℚ) / 64 := by positivity
    linarith

theorem findSimilarImages_of_one_lt (images : List ImageInfo) (t : ℚ) (ht : 1 < t) :
    findSimilarImages images t = [] := by
  rw [findSimilarImages_eq_groupRec]
  induction images using groupRec.induct t with
  | case1 => exact groupRec_nil t
  | case2 x rest matched hempty ih =>
    rw [groupRec_cons, if_pos hempty]
    exact ih
  | case3 x rest matched hnempty ih =>
    exfalso
    apply hnempty
    apply List.isEmpty_iff.mpr
    apply List.filter_eq_nil_iff.mpr
    intro y _
    simp [isSimilarTo_of_one_lt ht x y]

theorem parsePercentage_never_inf (s : Option GoFloat) (b : Bool) :
    parsePercentage s ≠ Except.ok (GoFloat.inf b) := by
  intro hc
  cases s with
  | none => exact Except.noConfusion hc
  | some v =>
    cases v with
    | nan => exact GoFloat.noConfusion (Except.ok.inj hc)
    | inf c => cases c <;> exact Except.noConfusion hc
    | finite q =>
      have hdef : parsePercentage (some (GoFloat.finite q)) =
          if (decide (q < 0) || decide (100 < q)) = true then
            Except.error "percentage must be between 0 and 100"
          else Except.ok (GoFloat.finite (q / 100)) := rfl
      rw [hdef] at hc
      split at hc
      · exact Except.noConfusion hc
      · exact GoFloat.noConfusion (Except.ok.inj hc)

theorem findSimilarImages_pair (a b : ImageInfo) (t : ℚ) :
    findSimilarImages [a, b] t = if isSimilarTo t a b then [[a, b]] else [] := by
  rw [findSimilarImages_eq_groupRec]
  by_cases hs : isSimilarTo t a b
  · rw [if_pos hs]
    rw [show ([a, b] : List ImageInfo) = a :: [b] from rfl, groupRec_cons]
    rw [List.filter_cons_of_pos (by simpa using hs),
      List.filter_cons_of_neg (by simp [hs])]
    simp [groupRec_nil]
  · rw [if_neg hs]
    rw [show ([a, b] : List ImageInfo) = a :: [b] from rfl, groupRec_cons]
    rw [List.filter_cons_of_neg (by simp [hs]),
      List.filter_cons_of_pos (by simp [hs])]
    simp [groupRec_cons, groupRec_nil]

section

attribute [local semireducible] Rat.add Rat.sub Rat.mul Rat.inv

/-- C2: for two images at fingerprint distance d and any threshold t, the
pair co-groups exactly when 1 - d/64 >= t, with equality included; at
threshold 1 the pair co-groups exactly when d = 0, and at threshold 0 the
pair always co-groups. -/
theorem threshold_boundary_iff (a b : ImageInfo) (d : Nat) (t : ℚ)
    (h : a.Hash.Distance b.Hash = Except.ok d) :
    (findSimilarImages [a, b] t =
      if (1 : ℚ) - (d : ℚ) / 64 ≥ t then [[a, b]] else [])
    ∧ (findSimilarImages [a, b] 1 = [[a, b]] ↔ d = 0)
    ∧ findSimilarImages [a, b] 0 = [[a, b]] := by
  have hd64 : d ≤ 64 := Distance_le_64 h
  have hpair : ∀ s : ℚ, findSimilarImages [a, b] s =
      if (1 : ℚ) - (d : ℚ) / 64 ≥ s then [[a, b]] else [] := by
    intro s
    rw [findSimilarImages_pair, isSimilarTo_of_ok s h]
    by_cases hc : (1 : ℚ) - (d : ℚ) / 64 ≥ s
    · rw [if_pos (by simpa using hc), if_pos hc]
    · rw [if_neg (by simpa using hc), if_neg hc]
  refine ⟨hpair t, ?_, ?_⟩
  · rw [hpair 1]
    by_cases hc : (1 : ℚ) - (d : ℚ) / 64 ≥ 1
    · rw [if_pos hc]
      simp [(one_sub_div_ge_one_iff d).mp hc]
    · rw [if_neg hc]
      constructor
      · intro habs
        exact absurd habs (by simp)
      · intro hd0
        exact absurd ((one_sub_div_ge_one_iff d).mpr hd0) hc
  · rw [hpair 0]
    rw [if_pos (one_sub_div_ge_zero hd64)]

/-- C10: the grouping operation normalizes every distance with the fixed
constant 64: whenever the two hash kinds agree, the distance is defined, it
is at most 64 (the Hamming weight of a 64-bit word), and the similarity test
is exactly the comparison 1 - d/64 >= t. -/
theorem max_distance_is_64 (a b : ImageInfo) (t : ℚ)
    (hk : a.Hash.kind = b.Hash.kind) :
    ∃ d : Nat, a.Hash.Distance b.Hash = Except.ok d ∧ d ≤ 64 ∧
      isSimilarTo t a b = decide ((1 : ℚ) - (d : ℚ) / 64 ≥ t) := by
  refine ⟨popcnt (a.Hash.hash % 2 ^ 64 ^^^ b.Hash.hash % 2 ^ 64), ?_, popcnt_le_64 _, ?_⟩
  · exact Distance_ok_of_kind_eq hk
  · exact isSimilarTo_of_ok t (Distance_ok_of_kind_eq hk)

/-- C4: a pair whose distance computation errors is treated as non-similar:
the candidate is not appended to the anchor's group, it stays available for
the recursive pass over the remainder, and grouping proceeds over all other
pairs exactly as the recursion prescribes. -/
theorem distance_error_treated_nonsimilar (t : ℚ) (a y : ImageInfo)
    (l : List ImageInfo) (e : String)
    (h : a.Hash.Distance y.Hash = Except.error e) :
    isSimilarTo t a y = false
    ∧ y ∉ l.filter (fun z => isSimilarTo t a z)
    ∧ (y ∈ l → y ∈ l.filter (fun z => !isSimilarTo t a z))
    ∧ findSimilarImages (a :: l) t =
        (if (l.filter (fun z => isSimilarTo t a z)).isEmpty then
          findSimilarImages (l.filter (fun z => !isSimilarTo t a z)) t
        else
          (a :: l.filter (fun z => isSimilarTo t a z)) ::
            findSimilarImages (l.filter (fun z => !isSimilarTo t a z)) t) := by
  have h1 : isSimilarTo t a y = false := isSimilarTo_of_error t h
  refine ⟨h1, ?_, ?_, ?_⟩
  · intro hc
    have hmem := List.of_mem_filter hc
    rw [h1] at hmem
    cases hmem
  · intro hy
    exact List.mem_filter.mpr ⟨hy, by simp [h1]⟩
  · simp only [findSimilarImages_eq_groupRec]
    rw [groupRec_cons]

/-- C5: every emitted group is an anchor followed by at least one member,
and every non-anchor member is within the similarity threshold of the
anchor; members need not be within the threshold of each other, as the
concrete group imgA, imgX, imgY at threshold 19/20 exhibits. -/
theorem group_members_within_threshold_of_anchor :
    (∀ (images : List ImageInfo) (t : ℚ), ∀ g ∈ findSimilarImages images t,
      ∃ a m, g = a :: m ∧ m ≠ [] ∧ ∀ y ∈ m, isSimilarTo t a y = true)
    ∧ (findSimilarImages [imgA, imgX, imgY] (19 / 20) = [[imgA, imgX, imgY]]
        ∧ isSimilarTo (19 / 20) imgX imgY = false
        ∧ isSimilarTo (19 / 20) imgY imgX = false) := by
  constructor
  · intro images t g hg
    rw [findSimilarImages_eq_groupRec] at hg
    obtain ⟨a, m, h1, h2, h3, _, _⟩ := groupRec_shape t images g hg
    exact ⟨a, m, h1, h2, h3⟩
  · refine ⟨by decide, by decide, by decide⟩

/-- C6: the emitted groups draw every occurrence from the input without
reuse (their concatenation is a subpermutation of the input); on
duplicate-free input the groups are pairwise disjoint; and an input image
that matches no other input image (both directions, over everything before
and after its own occurrence) appears in no emitted group. -/
theorem emitted_groups_pairwise_disjoint (images : List ImageInfo) (t : ℚ) :
    (findSimilarImages images t).flatten.Subperm images
    ∧ (images.Nodup →
        (∀ g ∈ findSimilarImages images t, g.Nodup)
        ∧ List.Pairwise List.Disjoint (findSimilarImages images t))
    ∧ (∀ (pre post : List ImageInfo) (a : ImageInfo), images = pre ++ a :: post →
        (∀ b ∈ pre ++ post, isSimilarTo t a b = false ∧ isSimilarTo t b a = false) →
        a ∉ (findSimilarImages images t).flatten) := by
  have hsub : (findSimilarImages images t).flatten.Subperm images := by
    rw [findSimilarImages_eq_groupRec]
    exact groupRec_flatten_subperm t images
  refine ⟨hsub, ?_, ?_⟩
  · intro hnd
    have hfl : (findSimilarImages images t).flatten.Nodup := by
      obtain ⟨w, hw1, hw2⟩ := hsub
      exact hw1.nodup (List.Nodup.sublist hw2 hnd)
    exact List.nodup_flatten.mp hfl
  · intro pre post a him ha hc
    subst him
    rw [findSimilarImages_eq_groupRec] at hc
    obtain ⟨g, hg, hag⟩ := List.mem_flatten.mp hc
    exact groupRec_excludes_unmatched t pre post a ha g hg hag

/-- C7: every emitted group has at least two members, and an input image
whose similarity to every other input image (both directions, over
everything before and after its own occurrence) is below the threshold is a
member of no emitted group. -/
theorem emitted_groups_have_at_least_two_members (images : List ImageInfo) (t : ℚ) :
    (∀ g ∈ findSimilarImages images t, 2 ≤ g.length)
    ∧ (∀ (pre post : List ImageInfo) (a : ImageInfo), images = pre ++ a :: post →
        (∀ b ∈ pre ++ post, isSimilarTo t a b = false ∧ isSimilarTo t b a = false) →
        ∀ g ∈ findSimilarImages images t, a ∉ g) := by
  constructor
  · intro g hg
    rw [findSimilarImages_eq_groupRec] at hg
    obtain ⟨a, m, h1, h2, _, _, _⟩ := groupRec_shape t images g hg
    rw [h1, List.length_cons]
    have hm : 0 < m.length := List.length_pos.mpr h2
    omega
  · intro pre post a him ha g hg
    subst him
    rw [findSimilarImages_eq_groupRec] at hg
    exact groupRec_excludes_unmatched t pre post a ha g hg

/-- C8: the grouping pass is a pure function of the input sequence and
threshold: the emitted members all come from the input sequence, which is
never modified, and the result does not depend on the representation of the
claimed-index set (Go's map), only on its membership: any two extensionally
equal claimed sets produce identical output. -/
theorem grouping_deterministic_no_mutation (images : List ImageInfo) (t : ℚ) :
    (∀ g ∈ findSimilarImages images t, ∀ y ∈ g, y ∈ images)
    ∧ (∀ u₁ u₂ : List Nat, (∀ n, n ∈ u₁ ↔ n ∈ u₂) →
        findSimilarImagesOuter t images.enum u₁ =
          findSimilarImagesOuter t images.enum u₂) := by
  constructor
  · intro g hg y hy
    rw [findSimilarImages_eq_groupRec] at hg
    obtain ⟨a, m, h1, _, _, hmem, hmemall⟩ := groupRec_shape t images g hg
    rw [h1] at hy
    rcases List.mem_cons.mp hy with hy | hy
    · rw [hy]; exact hmem
    · exact hmemall y hy
  · intro u₁ u₂ hu
    have hnd : (images.enum.map Prod.fst).Nodup := by
      rw [List.enum_map_fst]; exact List.nodup_range _
    rw [findSimilarImagesOuter_eq t images.enum u₁ hnd,
      findSimilarImagesOuter_eq t images.enum u₂ hnd]
    congr 2
    apply List.filter_congr
    intro p _
    have hp := hu p.1
    by_cases hmem : p.1 ∈ u₁
    · simp [hmem, hp.mp hmem]
    · have h2 : p.1 ∉ u₂ := fun hc => hmem (hp.mpr hc)
      simp [hmem, h2]

/-- C9 (amended): parsing fails exactly when the scan fails or the scanned
float value compares out of range under float semantics (value < 0 or
value > 100); for a finite scanned value this is exactly not-in-[0, 100],
and on success the threshold is the value divided by 100 and the pipeline
groups with it; but because every comparison with NaN is false, a scanned
NaN passes the range check, parsing succeeds on it although NaN is not a
number in [0, 100], and the pipeline then proceeds (with a NaN threshold
that matches no pair, so no group is emitted) instead of exiting. -/
theorem parse_percentage_errors_iff :
    (∀ s : Option GoFloat, (∃ e, parsePercentage s = Except.error e) ↔
        (s = none ∨ ∃ v, s = some v ∧
          (GoFloat.lt v (GoFloat.finite 0) = true ∨
            GoFloat.lt (GoFloat.finite 100) v = true)))
    ∧ (∀ q : ℚ, 0 ≤ q → q ≤ 100 →
        parsePercentage (some (GoFloat.finite q)) =
          Except.ok (GoFloat.finite (q / 100)))
    ∧ (∀ q : ℚ,
        (∃ e, parsePercentage (some (GoFloat.finite q)) = Except.error e) ↔
          (q < 0 ∨ 100 < q))
    ∧ parsePercentage (some GoFloat.nan) = Except.ok GoFloat.nan
    ∧ (∀ (s : Option GoFloat) (images : List ImageInfo) (e : String),
        parsePercentage s = Except.error e → runPipeline s images = none)
    ∧ (∀ images : List ImageInfo, runPipeline (some GoFloat.nan) images = some [])
    ∧ (∀ (q : ℚ) (images : List ImageInfo), 0 ≤ q → q ≤ 100 →
        runPipeline (some (GoFloat.finite q)) images =
          some (findSimilarImages images (q / 100))) := by
  have hfin : ∀ q : ℚ, parsePercentage (some (GoFloat.finite q)) =
      if (decide (q < 0) || decide (100 < q)) = true then
        Except.error "percentage must be between 0 and 100"
      else Except.ok (GoFloat.finite (q / 100)) := fun q => rfl
  have hok : ∀ q : ℚ, 0 ≤ q → q ≤ 100 →
      parsePercentage (some (GoFloat.finite q)) =
        Except.ok (GoFloat.finite (q / 100)) := by
    intro q h0 h100
    rw [hfin q, if_neg]
    simp only [Bool.or_eq_true, decide_eq_true_eq, not_or]
    exact ⟨not_lt.mpr h0, not_lt.mpr h100⟩
  refine ⟨?_, hok, ?_, rfl, ?_, fun images => rfl, ?_⟩
  · intro s
    cases s with
    | none =>
      constructor
      · intro _; exact Or.inl rfl
      · intro _; exact ⟨"scan error", rfl⟩
    | some v =>
      have hdef : parsePercentage (some v) =
          if (GoFloat.lt v (GoFloat.finite 0) ||
              GoFloat.lt (GoFloat.finite 100) v) = true then
            Except.error "percentage must be between 0 and 100"
          else Except.ok v.divBy100 := rfl
      rw [hdef]
      by_cases hb : (GoFloat.lt v (GoFloat.finite 0) ||
          GoFloat.lt (GoFloat.finite 100) v) = true
      · rw [if_pos hb]
        constructor
        · intro _
          exact Or.inr ⟨v, rfl, by simpa using hb⟩
        · intro _
          exact ⟨"percentage must be between 0 and 100", rfl⟩
      · rw [if_neg hb]
        constructor
        · rintro ⟨e, he⟩; cases he
        · rintro (hc | ⟨w, hw, hcond⟩)
          · cases hc
          · have hwv : w = v := by cases hw; rfl
            rw [hwv] at hcond
            rcases hcond with h1 | h1 <;> (exfalso; apply hb; simp [h1])
  · intro q
    rw [hfin q]
    by_cases hq : q < 0 ∨ 100 < q
    · rw [if_pos (by simpa using hq)]
      exact ⟨fun _ => hq, fun _ => ⟨"percentage must be between 0 and 100", rfl⟩⟩
    · rw [if_neg (by simpa using hq)]
      constructor
      · rintro ⟨e, he⟩; cases he
      · intro hc; exact absurd hc hq
  · intro s images e he
    unfold runPipeline
    rw [he]
  · intro q images h0 h100
    unfold runPipeline
    rw [hok q h0 h100]

/-- C9, counterexample to the claim as stated: the fmt scanner accepts the
float token NaN, which is not a number in [0, 100], yet parsePercentage
returns success on it (both range comparisons against NaN are false), and
the pipeline proceeds past argument parsing instead of exiting, emitting no
groups because no similarity comparison with a NaN threshold succeeds. -/
theorem parse_percentage_errors_iff_counterexample :
    GoFloat.isNumberIn0To100 GoFloat.nan = false
    ∧ parsePercentage (some GoFloat.nan) = Except.ok GoFloat.nan
    ∧ runPipeline (some GoFloat.nan) [imgA, imgA] = some [] :=
  ⟨rfl, rfl, rfl⟩

/-- C3: a stat or remove failure makes the reclaim of a group return the
error with a zero byte count (the bytes accumulated before the failure are
discarded); the loop stops at the first failing member, having removed
exactly the files before it; and the driver skips the failed group's bytes
while keeping every other group's bytes in the grand total. -/
theorem reclaim_partial_failure_accounting :
    (∀ (stat : String → Except String Int) (remove : String → Except String Unit)
        (g : List ImageInfo),
        ((deleteSimilarImages stat remove g).2.2).isSome →
        (deleteSimilarImages stat remove g).1 = 0)
    ∧ (∀ (stat : String → Except String Int) (remove : String → Except String Unit)
        (anchor f : ImageInfo) (pre post : List ImageInfo),
        (∀ x ∈ pre, (∃ s, stat x.Path = Except.ok s) ∧ remove x.Path = Except.ok ()) →
        ((∃ e, stat f.Path = Except.error e) ∨
          ((∃ s, stat f.Path = Except.ok s) ∧ ∃ e, remove f.Path = Except.error e)) →
        ∃ e, deleteSimilarImages stat remove (anchor :: (pre ++ f :: post)) =
          (0, pre.map (fun i => i.Path), some e))
    ∧ (∀ (stat : String → Except String Int) (remove : String → Except String Unit)
        (gs₁ : List (List ImageInfo)) (g : List ImageInfo) (gs₂ : List (List ImageInfo)),
        ((deleteSimilarImages stat remove g).2.2).isSome →
        totalSaved stat remove (gs₁ ++ g :: gs₂) = totalSaved stat remove (gs₁ ++ gs₂)) := by
  refine ⟨?_, ?_, ?_⟩
  · intro stat remove g h
    exact deleteLoop_error_zero stat remove g.tail 0 [] h
  · intro stat remove anchor f pre post hpre hf
    obtain ⟨e, he⟩ := deleteLoop_stops_at_failure stat remove f hf pre hpre post 0 []
    refine ⟨e, ?_⟩
    unfold deleteSimilarImages
    rw [show (anchor :: (pre ++ f :: post)).tail = pre ++ f :: post from rfl, he]
    simp
  · intro stat remove gs₁ g gs₂ herr
    rw [totalSaved_eq_sum, totalSaved_eq_sum, List.map_append, List.map_append,
      List.map_cons, List.sum_append, List.sum_append, List.sum_cons]
    have hz : (if 1 < g.length then
        match deleteSimilarImages stat remove g with
        | (saved, _, none) => saved
        | (_, _, some _) => 0
      else 0) = 0 := by
      by_cases hl : 1 < g.length
      · rw [if_pos hl]
        rcases hd : deleteSimilarImages stat remove g with ⟨s, rm, err⟩
        rw [hd] at herr
        cases err with
        | none => simp at herr
        | some e => rfl
      · rw [if_neg hl]
    rw [hz]
    ring

/-- C1: the spec requires the reclaim sort to be a stable sort by distance
to the original anchor, so that the anchor ends at index 0 and is the
surviving file.  The code calls sort.Slice, whose contract guarantees only
an admissible permutation and explicitly not stability (sort.SliceStable
exists for that); moreover its comparator reads the anchor from the slice
being permuted.  On a 13-member group (beyond the stdlib's 12-element
insertion-sort cutoff) containing an exact duplicate of the anchor at
distance 0, the contract admits the order c1Sorted in which the duplicate
precedes the anchor: the anchor then sits at index 1, every member at index
1 and beyond is deleted, so the anchor "p0" itself is removed and the
surviving file is the duplicate "p1". -/
theorem sortSlice_unstable_admits_anchor_deletion :
    SortSliceSpec (goLess (mkImg "p0" 0)) c1Group c1Sorted
    ∧ c1Group.head? = some (mkImg "p0" 0)
    ∧ c1Sorted.head? ≠ some (mkImg "p0" 0)
    ∧ (deleteSimilarImages (fun _ => Except.ok 1) (fun _ => Except.ok ())
        c1Sorted).2.1 =
        ["p0", "p2", "p3", "p4", "p5", "p6", "p7", "p8", "p9", "p10", "p11", "p12"] := by
  refine ⟨⟨?_, ?_⟩, ?_, ?_, ?_⟩
  · show c1Group.Perm c1Sorted
    unfold c1Group c1Sorted
    exact List.Perm.swap (mkImg "p1" 0) (mkImg "p0" 0) _
  · show List.Pairwise _ c1Sorted
    decide
  · decide
  · decide
  · decide

/-! Witness instantiations of the hypothesis-bearing theorems at concrete,
computed inputs. -/

/-- Witness for threshold_boundary_iff: imgA and imgX are at distance 3. -/
theorem threshold_boundary_iff_witness :
    (findSimilarImages [imgA, imgX] (19 / 20) =
      if (1 : ℚ) - (3 : ℚ) / 64 ≥ 19 / 20 then [[imgA, imgX]] else [])
    ∧ (findSimilarImages [imgA, imgX] 1 = [[imgA, imgX]] ↔ 3 = 0)
    ∧ findSimilarImages [imgA, imgX] 0 = [[imgA, imgX]] :=
  threshold_boundary_iff imgA imgX 3 (19 / 20) (by rfl)

/-- Witness for max_distance_is_64 at imgA, imgX. -/
theorem max_distance_is_64_witness :
    ∃ d : Nat, imgA.Hash.Distance imgX.Hash = Except.ok d ∧ d ≤ 64 ∧
      isSimilarTo (19 / 20) imgA imgX = decide ((1 : ℚ) - (d : ℚ) / 64 ≥ 19 / 20) :=
  max_distance_is_64 imgA imgX (19 / 20) (by decide)

/-- Witness for distance_error_treated_nonsimilar: imgB1 has a different
hash kind, so the distance to imgA errors. -/
theorem distance_error_treated_nonsimilar_witness :
    isSimilarTo (1 / 2) imgA imgB1 = false :=
  (distance_error_treated_nonsimilar (1 / 2) imgA imgB1 [imgB1]
    "image hashes kind should be identical" (by rfl)).1

/-- Witness for group_members_within_threshold_of_anchor: the single group
emitted for imgA, imgX, imgY at threshold 19/20. -/
theorem group_members_within_threshold_of_anchor_witness :
    ∃ a m, ([imgA, imgX, imgY] : List ImageInfo) = a :: m ∧ m ≠ [] ∧
      ∀ y ∈ m, isSimilarTo (19 / 20) a y = true :=
  group_members_within_threshold_of_anchor.1 [imgA, imgX, imgY] (19 / 20)
    [imgA, imgX, imgY] (by decide)

/-- Witness for emitted_groups_pairwise_disjoint on the input imgA, imgX,
imgY, imgW: disjointness of the emitted groups, and absence of imgW, an
input member that matches none of the other three. -/
theorem emitted_groups_pairwise_disjoint_witness :
    ((∀ g ∈ findSimilarImages [imgA, imgX, imgY, imgW] (19 / 20), g.Nodup)
      ∧ List.Pairwise List.Disjoint (findSimilarImages [imgA, imgX, imgY, imgW] (19 / 20)))
    ∧ imgW ∉ (findSimilarImages [imgA, imgX, imgY, imgW] (19 / 20)).flatten :=
  ⟨(emitted_groups_pairwise_disjoint [imgA, imgX, imgY, imgW] (19 / 20)).2.1 (by decide),
   (emitted_groups_pairwise_disjoint [imgA, imgX, imgY, imgW] (19 / 20)).2.2
     [imgA, imgX, imgY] [] imgW (by rfl) (by decide)⟩

/-- Witness for emitted_groups_have_at_least_two_members on the input imgA,
imgX, imgY, imgW: the emitted group has two or more members, and imgW, an
input member matching none of the other three, is in no emitted group. -/
theorem emitted_groups_have_at_least_two_members_witness :
    2 ≤ ([imgA, imgX, imgY] : List ImageInfo).length
    ∧ imgW ∉ ([imgA, imgX, imgY] : List ImageInfo) :=
  ⟨(emitted_groups_have_at_least_two_members [imgA, imgX, imgY, imgW] (19 / 20)).1
      [imgA, imgX, imgY] (by decide),
   (emitted_groups_have_at_least_two_members [imgA, imgX, imgY, imgW] (19 / 20)).2
      [imgA, imgX, imgY] [] imgW (by rfl) (by decide) [imgA, imgX, imgY] (by decide)⟩

/-- Witness for grouping_deterministic_no_mutation: two representations of
the same claimed set give the same run. -/
theorem grouping_deterministic_no_mutation_witness :
    findSimilarImagesOuter (19 / 20) ([imgA, imgX, imgY] : List ImageInfo).enum [5, 7] =
      findSimilarImagesOuter (19 / 20) ([imgA, imgX, imgY] : List ImageInfo).enum [7, 5] :=
  (grouping_deterministic_no_mutation [imgA, imgX, imgY] (19 / 20)).2 [5, 7] [7, 5]
    (by intro n; simp [or_comm])

/-- Witness for parse_percentage_errors_iff at the percentages 90 and 101. -/
theorem parse_percentage_errors_iff_witness :
    parsePercentage (some (GoFloat.finite 90)) =
      Except.ok (GoFloat.finite ((90 : ℚ) / 100))
    ∧ ((∃ e, parsePercentage (some (GoFloat.finite 101)) = Except.error e) ↔
        ((101 : ℚ) < 0 ∨ 100 < (101 : ℚ)))
    ∧ runPipeline none [imgA] = none
    ∧ runPipeline (some (GoFloat.finite 90)) [imgA] =
        some (findSimilarImages [imgA] ((90 : ℚ) / 100)) :=
  ⟨parse_percentage_errors_iff.2.1 90 (by decide) (by decide),
   parse_percentage_errors_iff.2.2.1 101,
   parse_percentage_errors_iff.2.2.2.2.1 none [imgA] "scan error" (by rfl),
   parse_percentage_errors_iff.2.2.2.2.2.2 90 [imgA] (by decide) (by decide)⟩

/-- Witness for reclaim_partial_failure_accounting: a three-member group
whose third member's removal fails after the second was removed. -/
theorem reclaim_partial_failure_accounting_witness :
    (deleteSimilarImages statSeven removeFailQ3 gBad).1 = 0
    ∧ (∃ e, deleteSimilarImages statSeven removeFailQ3
        (mkImg "q1" 0 :: ([mkImg "q2" 0] ++ mkImg "q3" 0 :: [])) =
        (0, [mkImg "q2" 0].map (fun i => i.Path), some e))
    ∧ totalSaved statSeven removeFailQ3 ([gGood] ++ gBad :: []) =
        totalSaved statSeven removeFailQ3 ([gGood] ++ []) :=
  ⟨reclaim_partial_failure_accounting.1 statSeven removeFailQ3 gBad (by decide),
   reclaim_partial_failure_accounting.2.1 statSeven removeFailQ3 (mkImg "q1" 0)
     (mkImg "q3" 0) [mkImg "q2" 0] []
     (by
       intro x hx
       rw [List.mem_singleton] at hx
       subst hx
       exact ⟨⟨7, rfl⟩, rfl⟩)
     (Or.inr ⟨⟨7, rfl⟩, ⟨"remove failed", rfl⟩⟩),
   reclaim_partial_failure_accounting.2.2 statSeven removeFailQ3 [gGood] gBad []
     (by decide)⟩

end
